import Mathlib

/-!
Verification of the membership-lifecycle core of the `dragon-ops` repository
(a Django club-membership application), shallowly embedded in Lean 4.

Embedding conventions:

* Calendar dates (`Date`) are triples of naturals (year, month, day).
  Python's `calendar.monthrange(y, m)[1]` is `monthrange y m`; it is only
  meaningful for months 1..12 (Python raises outside that range), so theorems
  that depend on it carry `1 ≤ month ∧ month ≤ 12` hypotheses.
* Decimal currency (`DecimalField(decimal_places=2)`) is embedded as integer
  cents (`Nat`).  Python computes `int(float(amount) / float(dues))`, which on
  the non-negative currency values involved is floor division, i.e. `Nat` `/`.
* The lifecycle / grace-period code (`members/admin_views.py`,
  `management/commands/process_expired_members.py`, model methods) only
  compares dates and subtracts day counts (`timedelta(days=n)`), so there
  dates are embedded as day ordinals (`Int`): `d1 < d2` and `today - n`
  mean exactly the Python `date` comparison and subtraction.
* Django querysets over the member / payment tables are embedded as `List`s
  of records; per-row `UPDATE`s of independently selected rows are `List.map`
  of the per-row update function.
-/

/-! ## Date arithmetic (`members/utils.py`) -/

/-- A calendar date as used by `members/utils.py` (Python `datetime.date`). -/
structure Date where
  year : Nat
  month : Nat
  day : Nat
deriving DecidableEq, Repr

/-- Gregorian leap-year test (Python `calendar.isleap`). -/
def isLeapYear (y : Nat) : Bool :=
  (y % 4 == 0 && y % 100 != 0) || (y % 400 == 0)

/-- Number of days in a month: Python `calendar.monthrange(y, m)[1]`.
Python raises for `m` outside 1..12; the value returned here for such `m`
is irrelevant junk (theorems that need it assume `1 ≤ m ∧ m ≤ 12`). -/
def monthrange (y m : Nat) : Nat :=
  if m = 2 then (if isLeapYear y then 29 else 28)
  else if m = 4 ∨ m = 6 ∨ m = 9 ∨ m = 11 then 30
  else 31

/-- `utils.ensure_end_of_month`: force date to be the last day of its month. -/
def ensure_end_of_month (d : Date) : Date :=
  { d with day := monthrange d.year d.month }

/-- `utils.add_months_to_date`: add months to a date and return the last day
of the resulting month (the spec's `AddMonthsEndOfMonth`).  The source
computes `month = date.month - 1 + months`, `year = date.year + month // 12`,
`month = month % 12 + 1` and then the last day of that month.  The payment
engine only calls it with a non-negative month count, hence `months : Nat`. -/
def add_months_to_date (d : Date) (months : Nat) : Date :=
  let month0 := d.month - 1 + months
  let year := d.year + month0 / 12
  let month := month0 % 12 + 1
  { year := year, month := month, day := monthrange year month }

/-- Python lexicographic `datetime.date` ordering. -/
def dateLe (a b : Date) : Prop :=
  a.year < b.year ∨
    (a.year = b.year ∧ (a.month < b.month ∨ (a.month = b.month ∧ a.day ≤ b.day)))

instance : DecidablePred (fun p : Date × Date => dateLe p.1 p.2) := by
  intro p
  unfold dateLe
  infer_instance

instance (a b : Date) : Decidable (dateLe a b) := by
  unfold dateLe
  infer_instance

/-- The produced date is the last calendar day of its month. -/
def isEndOfMonth (d : Date) : Bool :=
  decide (d.day = monthrange d.year d.month)

/-! ## Reference data (`members/models.py`) -/

/-- `models.MemberType` (dues in integer cents). -/
structure MemberType where
  member_type : String
  member_dues : Nat
  num_months : Nat
deriving DecidableEq, Repr

/-! ## Payment-to-expiration engine (`members/services.py`) -/

/-- `PaymentService.calculate_expiration` (renewal path).  The source reads
only `member.member_type` and `member.expiration_date`, which are passed
here directly.  `if override_expiration:` is truthy for every date, and
`if member.member_type and member.member_type.member_dues > 0` falls to the
else branch both for a missing type and for zero dues. -/
def calculate_expiration (member_type : Option MemberType) (expiration_date : Date)
    (payment_amount : Nat) (override_expiration : Option Date) : Date :=
  match override_expiration with
  | some o => o
  | none =>
    match member_type with
    | some mt =>
      if 0 < mt.member_dues then
        add_months_to_date expiration_date (payment_amount / mt.member_dues)
      else
        add_months_to_date expiration_date 1
    | none => add_months_to_date expiration_date 1

/-- `PaymentService.calculate_expiration_for_new_member`.  `start_date`
defaults to `date.today()` in the source and is passed explicitly here. -/
def calculate_expiration_for_new_member (member_type : Option MemberType)
    (payment_amount : Nat) (start_date : Date) (override_expiration : Option Date) : Date :=
  match override_expiration with
  | some o => ensure_end_of_month o
  | none =>
    let current_month_end := ensure_end_of_month start_date
    match member_type with
    | some mt =>
      if 0 < mt.member_dues then
        let total_months_to_add := payment_amount / mt.member_dues
        if total_months_to_add = 0 then current_month_end
        else add_months_to_date current_month_end total_months_to_add
      else current_month_end
    | none => current_month_end

/-! ## Housekeeping lemmas about the date arithmetic -/

/-- Adding zero months to a valid date is exactly end-of-month snapping. -/
theorem add_months_zero (d : Date) (h1 : 1 ≤ d.month) (h2 : d.month ≤ 12) :
    add_months_to_date d 0 = ensure_end_of_month d := by
  have hm : (d.month - 1 + 0) % 12 + 1 = d.month := by omega
  have hy : d.year + (d.month - 1 + 0) / 12 = d.year := by omega
  simp only [add_months_to_date, ensure_end_of_month, hm, hy]

/-- Month adding never moves a snapped date backwards (Python date order). -/
theorem le_add_months_ensure (d : Date) (n : Nat) (h1 : 1 ≤ d.month) (h2 : d.month ≤ 12) :
    dateLe (ensure_end_of_month d) (add_months_to_date (ensure_end_of_month d) n) := by
  by_cases hn : n = 0
  · subst hn
    rw [show ensure_end_of_month d = { d with day := monthrange d.year d.month } from rfl]
    rw [add_months_zero _ (by simpa using h1) (by simpa using h2)]
    right
    exact ⟨rfl, Or.inr ⟨rfl, le_refl _⟩⟩
  · unfold dateLe add_months_to_date ensure_end_of_month
    simp only
    omega

theorem isEndOfMonth_add_months (d : Date) (n : Nat) :
    isEndOfMonth (add_months_to_date d n) = true := by
  simp [isEndOfMonth, add_months_to_date]

theorem isEndOfMonth_ensure (d : Date) :
    isEndOfMonth (ensure_end_of_month d) = true := by
  simp [isEndOfMonth, ensure_end_of_month]

/-! ## Claims C2 - C5 -/

/-- C2: on the renewal path, the computed new expiration equals the override
when one is present, and otherwise equals
`AddMonthsEndOfMonth(current_expiration, floor(amount / monthly_dues))`;
when `monthly_dues == 0`, exactly 1 month is added instead. -/
theorem renewal_expiration_correct (mt : MemberType) (exp : Date) (amt : Nat) (o : Date) :
    calculate_expiration (some mt) exp amt (some o) = o ∧
    (0 < mt.member_dues →
      calculate_expiration (some mt) exp amt none =
        add_months_to_date exp (amt / mt.member_dues)) ∧
    (mt.member_dues = 0 →
      calculate_expiration (some mt) exp amt none = add_months_to_date exp 1) := by
  refine ⟨rfl, fun h => ?_, fun h => ?_⟩
  · simp [calculate_expiration, h]
  · simp [calculate_expiration, h]

theorem renewal_expiration_correct_witness :
    calculate_expiration (some ⟨"Regular", 3000, 1⟩) ⟨2025, 3, 31⟩ 6000 none =
      add_months_to_date ⟨2025, 3, 31⟩ (6000 / 3000) :=
  (renewal_expiration_correct ⟨"Regular", 3000, 1⟩ ⟨2025, 3, 31⟩ 6000
    ⟨2025, 12, 31⟩).2.1 (by decide)

/-- C3 counterexample: with dues $30.00, expiration 2025-03-15 and a $15.00
payment (underpayment, `floor(amount/dues) = 0`), the renewal path returns
2025-03-31 (end-of-month snap of the stored expiration), NOT the member's
expiration date unchanged. -/
theorem renewal_underpayment_changes_non_eom_expiration :
    calculate_expiration (some ⟨"Regular", 3000, 1⟩) ⟨2025, 3, 15⟩ 1500 none =
      ⟨2025, 3, 31⟩ ∧
    (⟨2025, 3, 31⟩ : Date) ≠ ⟨2025, 3, 15⟩ := by
  exact ⟨by decide, by decide⟩

/-- C3 (amended): for a renewal underpayment (`floor(amount/dues) = 0`,
dues positive, no override), the renewal path returns the end-of-month snap
of the stored expiration; the expiration is unchanged exactly when it
already is the last day of its (valid) month. -/
theorem renewal_underpayment_unchanged (mt : MemberType) (exp : Date) (amt : Nat)
    (hd : 0 < mt.member_dues) (hu : amt / mt.member_dues = 0)
    (h1 : 1 ≤ exp.month) (h2 : exp.month ≤ 12)
    (heom : exp.day = monthrange exp.year exp.month) :
    calculate_expiration (some mt) exp amt none = exp := by
  have : calculate_expiration (some mt) exp amt none = add_months_to_date exp 0 := by
    simp [calculate_expiration, hd, hu]
  rw [this, add_months_zero exp h1 h2]
  show { exp with day := monthrange exp.year exp.month } = exp
  rw [← heom]

theorem renewal_underpayment_unchanged_witness :
    calculate_expiration (some ⟨"Regular", 3000, 1⟩) ⟨2025, 3, 31⟩ 1500 none =
      ⟨2025, 3, 31⟩ :=
  renewal_underpayment_unchanged ⟨"Regular", 3000, 1⟩ ⟨2025, 3, 31⟩ 1500
    (by decide) (by decide) (by decide) (by decide) (by decide)

/-- C4: for a new member with positive monthly dues and no override, the
computed expiration is
`AddMonthsEndOfMonth(EndOfMonth(start_date), floor(amount / monthly_dues))`
and is never earlier than the end of the start date's month, even when the
computed month count is 0. -/
theorem new_member_expiration_correct (mt : MemberType) (amt : Nat) (start : Date)
    (hd : 0 < mt.member_dues) (h1 : 1 ≤ start.month) (h2 : start.month ≤ 12) :
    calculate_expiration_for_new_member (some mt) amt start none =
      add_months_to_date (ensure_end_of_month start) (amt / mt.member_dues) ∧
    dateLe (ensure_end_of_month start)
      (calculate_expiration_for_new_member (some mt) amt start none) := by
  have heq : calculate_expiration_for_new_member (some mt) amt start none =
      add_months_to_date (ensure_end_of_month start) (amt / mt.member_dues) := by
    by_cases hz : amt / mt.member_dues = 0
    · simp only [calculate_expiration_for_new_member, hd, if_true, hz, if_pos rfl]
      rw [add_months_zero (ensure_end_of_month start) (by simpa using h1) (by simpa using h2)]
      show ensure_end_of_month start = _
      simp [ensure_end_of_month]
    · simp [calculate_expiration_for_new_member, hd, hz]
  refine ⟨heq, ?_⟩
  rw [heq]
  exact le_add_months_ensure start _ h1 h2

theorem new_member_expiration_correct_witness :
    calculate_expiration_for_new_member (some ⟨"Regular", 3000, 1⟩) 1500 ⟨2025, 11, 15⟩ none =
      add_months_to_date (ensure_end_of_month ⟨2025, 11, 15⟩) (1500 / 3000) ∧
    dateLe (ensure_end_of_month ⟨2025, 11, 15⟩)
      (calculate_expiration_for_new_member (some ⟨"Regular", 3000, 1⟩) 1500 ⟨2025, 11, 15⟩ none) :=
  new_member_expiration_correct ⟨"Regular", 3000, 1⟩ 1500 ⟨2025, 11, 15⟩
    (by decide) (by decide) (by decide)

/-- C5 counterexample: on the renewal path an override date is returned
verbatim, NOT snapped to end-of-month: overriding to 2025-03-15 yields
2025-03-15, which is not the last day of a month. -/
theorem renewal_override_not_snapped :
    calculate_expiration (some ⟨"Regular", 3000, 1⟩) ⟨2025, 1, 31⟩ 3000
      (some ⟨2025, 3, 15⟩) = ⟨2025, 3, 15⟩ ∧
    isEndOfMonth ⟨2025, 3, 15⟩ = false := by
  exact ⟨rfl, by decide⟩

/-- C5 (amended): every expiration produced by the new-member path (override
or not) is the last calendar day of some month, and so is every renewal-path
expiration computed without an override; a renewal-path override, however,
is returned unchanged (it is NOT snapped to end-of-month). -/
theorem expiration_end_of_month_invariant (mt : Option MemberType) (exp : Date)
    (amt : Nat) (start : Date) (o : Date) :
    isEndOfMonth (calculate_expiration_for_new_member mt amt start (some o)) = true ∧
    isEndOfMonth (calculate_expiration_for_new_member mt amt start none) = true ∧
    isEndOfMonth (calculate_expiration mt exp amt none) = true ∧
    calculate_expiration mt exp amt (some o) = o := by
  refine ⟨isEndOfMonth_ensure o, ?_, ?_, rfl⟩
  · cases mt with
    | none => exact isEndOfMonth_ensure start
    | some t =>
      by_cases hd : 0 < t.member_dues
      · by_cases hz : amt / t.member_dues = 0
        · simp only [calculate_expiration_for_new_member, hd, if_true, hz, if_pos rfl]
          exact isEndOfMonth_ensure start
        · simp only [calculate_expiration_for_new_member, hd, if_true, if_neg hz]
          exact isEndOfMonth_add_months _ _
      · simp only [calculate_expiration_for_new_member, hd, if_false]
        exact isEndOfMonth_ensure start
  · cases mt with
    | none => exact isEndOfMonth_add_months _ _
    | some t =>
      by_cases hd : 0 < t.member_dues
      · simp only [calculate_expiration, hd, if_true]
        exact isEndOfMonth_add_months _ _
      · simp only [calculate_expiration, hd, if_false]
        exact isEndOfMonth_add_months _ _

/-! ## Lifecycle data model (`members/models.py`)

Here dates are day ordinals (`Int`): the lifecycle code only compares dates
and subtracts day counts.  `member_uuid` is the permanent identifier
(embedded as a `Nat` tag), `member_id` the recyclable integer ID. -/

inductive Status where
  | active
  | inactive
  | deceased
deriving DecidableEq, Repr

/-- `models.Member` — the columns read or written by the lifecycle,
ID-pool, payment-processing and duplicate-detection code. -/
structure Member where
  member_uuid : Nat
  member_id : Option Nat
  preferred_member_id : Option Nat
  status : Status
  expiration_date : Int
  date_inactivated : Option Int
  first_name : String
  last_name : String
  email : String
  home_phone : String
deriving DecidableEq, Repr

/-- `models.Payment` — an immutable payment row. -/
structure Payment where
  member_uuid : Nat
  payment_method : Nat
  amount : Nat
  date : Int
  receipt_number : String
deriving DecidableEq, Repr

/-- Python truthiness of an optional integer field
(`if self.member_id:` is false for `None` and for `0`). -/
def optPos : Option Nat → Bool
  | some i => decide (i ≠ 0)
  | none => false

/-! ## Member ID pool (`models.MemberManager`, `services.MemberService`) -/

/-- An ID is held iff some active member row carries it
(`self.filter(status="active", member_id__isnull=False)` membership). -/
def id_taken (members : List Member) (i : Nat) : Bool :=
  members.any (fun m => decide (m.status = Status.active ∧ m.member_id = some i))

/-- `MemberManager.is_member_id_available`:
`not self.filter(member_id=member_id, status="active").exists()`. -/
def is_member_id_available (members : List Member) (i : Nat) : Bool :=
  ! id_taken members i

/-- `MemberManager.get_next_available_id`: first ID in `range(1, 1001)` not
among the active members' IDs, `None` if the loop falls through. -/
def get_next_available_id (members : List Member) : Option Nat :=
  (List.range' 1 1000).find? (fun i => ! id_taken members i)

/-- The loop body of `MemberService.get_suggested_ids`: for each candidate
in order, `if id_num not in used_ids: suggested_ids.append(id_num);
if len(suggested_ids) >= count: break`.  Note the break test runs only
AFTER an append, so even `count = 0` collects one available ID. -/
def suggest_loop (avail : Nat → Bool) (count : Nat) :
    List Nat → List Nat → List Nat
  | [], suggested_ids => suggested_ids
  | id_num :: rest, suggested_ids =>
    if avail id_num then
      if count ≤ (suggested_ids ++ [id_num]).length then suggested_ids ++ [id_num]
      else suggest_loop avail count rest (suggested_ids ++ [id_num])
    else suggest_loop avail count rest suggested_ids

/-- `MemberService.get_suggested_ids`: run the loop over `range(1, 1001)`
starting from the empty list;
`next_member_id = suggested_ids[0] if suggested_ids else 1`. -/
def get_suggested_ids (members : List Member) (count : Nat) : Nat × List Nat :=
  let suggested_ids :=
    suggest_loop (fun i => ! id_taken members i) count (List.range' 1 1000) []
  (suggested_ids.headD 1, suggested_ids)

/-! ## Lifecycle transitions (`models.Member` methods, admin view, command) -/

/-- `Member.is_expired_for_deactivation`: expired more than 90 days
(`expiration_date < date.today() - timedelta(days=90)`; the `DateField` is
non-null, so the source's `if self.expiration_date:` guard is always taken). -/
def is_expired_for_deactivation (today : Int) (m : Member) : Bool :=
  decide (m.expiration_date < today - 90)

/-- `Member.deactivate`: release the recyclable ID into
`preferred_member_id` (only under a truthy `self.member_id`), then set
status inactive and stamp `date_inactivated`. -/
def deactivate (today : Int) (m : Member) : Member :=
  let m1 := if optPos m.member_id then
    { m with preferred_member_id := m.member_id, member_id := none }
  else m
  { m1 with status := Status.inactive, date_inactivated := some today }

/-- `Member.reactivate`: restore `preferred_member_id` when truthy and
available, else take the next available ID (possibly `None` on exhaustion);
always sets status active and clears `date_inactivated`.
`preferred_member_id` itself is never written. -/
def reactivate (members : List Member) (m : Member) : Member :=
  let new_id : Option Nat :=
    match m.preferred_member_id with
    | some p =>
      if p ≠ 0 ∧ is_member_id_available members p = true then some p
      else get_next_available_id members
    | none => get_next_available_id members
  { m with member_id := new_id, status := Status.active, date_inactivated := none }

/-- Is there a payment of this member strictly after its expiration
(`member.payments.filter(date__gt=member.expiration_date).exists()`)? -/
def has_payment_after (payments : List Payment) (m : Member) : Bool :=
  payments.any (fun p => decide (p.member_uuid = m.member_uuid ∧
    p.date > m.expiration_date))

/-- Per-row effect of the POST branch of
`admin_views.deactivate_expired_members_view`: rows are fetched with
`filter(member_uuid__in=member_uuids, status="active")`, and each fetched row
is deactivated only after re-checking `is_expired_for_deactivation` and the
absence of a payment after expiration; ineligible rows only add an error
message and are left unchanged. -/
def admin_step (today : Int) (payments : List Payment) (selected : List Nat)
    (m : Member) : Member :=
  if selected.contains m.member_uuid ∧ m.status = Status.active then
    if is_expired_for_deactivation today m then
      if has_payment_after payments m then m
      else deactivate today m
    else m
  else m

/-- The whole POST handler as a table transformation: each selected active
row is updated independently (per-member `try/except`, no abort). -/
def deactivate_expired_members_view (today : Int) (payments : List Payment)
    (selected : List Nat) (members : List Member) : List Member :=
  members.map (admin_step today payments selected)

/-- Per-row effect of `Command.process_expired_members`: every member
fetched by `filter(status="active", expiration_date__lt=cutoff_date)` is
inactivated (ID cleared, `date_inactivated` stamped); note that
`preferred_member_id` is NOT saved and payments are never consulted. -/
def command_step (today : Int) (grace_period_days : Nat) (m : Member) : Member :=
  if m.status = Status.active ∧ m.expiration_date < today - (grace_period_days : Int) then
    { m with status := Status.inactive, member_id := none,
             date_inactivated := some today }
  else m

/-- The scheduled command's bulk deactivation as a table transformation. -/
def process_expired_members (today : Int) (grace_period_days : Nat)
    (members : List Member) : List Member :=
  members.map (command_step today grace_period_days)

/-- `Command.reinstate_member` on an inactive member: when no active member
holds `preferred_member_id`, it is restored (even when `None`) and the row is
saved active.  When it is taken, the source calls
`Member.get_next_available_member_id()`, a method that does not exist
anywhere in the code base (`models.py` defines `get_next_available_id` on the
manager only), so that path raises `AttributeError`; it is modelled as
`none` (abnormal termination), as is the not-found/not-inactive early return. -/
def reinstate_member (members : List Member) (m : Member) : Option Member :=
  if m.status = Status.inactive then
    if ! members.any (fun x => decide (x.status = Status.active ∧
        x.member_id = m.preferred_member_id)) then
      some { m with member_id := m.preferred_member_id, status := Status.active,
                    date_inactivated := none }
    else none
  else none

/-! ## Payment processing (`PaymentService.process_payment`) -/

/-- The caller-supplied `payment_data` dict (amount in cents, dates as day
ordinals, `new_expiration` already computed by the caller). -/
structure PaymentData where
  payment_method_id : Nat
  amount : Nat
  payment_date : Int
  receipt_number : String
  new_expiration : Int
deriving DecidableEq, Repr

/-- `PaymentService.process_payment`: create the payment row, overwrite the
member's expiration, flip an inactive member to active (clearing
`date_inactivated`), and report whether that reactivation happened.
No other member column is touched; the ID pool is never consulted. -/
def process_payment (m : Member) (payment_data : PaymentData) :
    Payment × Member × Bool :=
  let payment : Payment :=
    { member_uuid := m.member_uuid,
      payment_method := payment_data.payment_method_id,
      amount := payment_data.amount,
      date := payment_data.payment_date,
      receipt_number := payment_data.receipt_number }
  let m1 := { m with expiration_date := payment_data.new_expiration }
  let was_inactive := decide (m1.status = Status.inactive)
  let m2 := if m1.status = Status.inactive then
    { m1 with status := Status.active, date_inactivated := none }
  else m1
  (payment, m2, was_inactive)

/-! ## Helper lemmas on ascending scans -/

/-- A `find?` over `range' s n` returns the least element of the range
satisfying the predicate. -/
theorem find?_range'_spec (p : Nat → Bool) :
    ∀ (n s x : Nat), (List.range' s n).find? p = some x →
      p x = true ∧ s ≤ x ∧ x < s + n ∧ ∀ j, s ≤ j → j < x → p j = false := by
  intro n
  induction n with
  | zero => intro s x h; simp [List.range'] at h
  | succ k ih =>
    intro s x h
    rw [List.range'_succ] at h
    by_cases hp : p s = true
    · rw [List.find?_cons_of_pos _ hp] at h
      injection h with h
      subst h
      exact ⟨hp, by omega, by omega, fun j hj1 hj2 => by omega⟩
    · rw [List.find?_cons_of_neg _ hp] at h
      obtain ⟨h1, h2, h3, h4⟩ := ih (s + 1) x h
      refine ⟨h1, by omega, by omega, fun j hj1 hj2 => ?_⟩
      by_cases hjs : j = s
      · subst hjs
        revert hp
        cases p j <;> simp
      · exact h4 j (by omega) hj2

/-! ## Claim C1 -/

/-- C1 (amended): the admin bulk-deactivate view flips a member to inactive
exactly when it is selected, still active, expired more than 90 days, and has
no payment dated after its expiration — the full predicate re-checked per
member at execution time, each member's outcome independent of the rest of
the batch.  The scheduled command, by contrast, flips every active member
whose expiration is older than the grace cutoff, WITHOUT consulting
payments.  Both bulk operations act row-by-row (`List.map`). -/
theorem bulk_deactivation_eligibility (today : Int) (grace_period_days : Nat)
    (payments : List Payment) (selected : List Nat) (m : Member)
    (members : List Member) :
    ((admin_step today payments selected m).status = Status.inactive ↔
      (m.status = Status.inactive ∨
        (selected.contains m.member_uuid = true ∧ m.status = Status.active ∧
          m.expiration_date < today - 90 ∧ has_payment_after payments m = false))) ∧
    deactivate_expired_members_view today payments selected members =
      members.map (admin_step today payments selected) ∧
    ((command_step today grace_period_days m).status = Status.inactive ↔
      (m.status = Status.inactive ∨
        (m.status = Status.active ∧
          m.expiration_date < today - (grace_period_days : Int)))) ∧
    process_expired_members today grace_period_days members =
      members.map (command_step today grace_period_days) := by
  refine ⟨?_, rfl, ?_, rfl⟩
  · unfold admin_step
    split_ifs with h1 h2 h3
    · -- selected ∧ active, expired, but a payment after expiration: unchanged
      constructor
      · intro h; exact Or.inl h
      · rintro (h | ⟨_, _, _, hp⟩)
        · exact h
        · rw [hp] at h3; cases h3
    · -- selected ∧ active, expired, no late payment: deactivated
      have hst : (deactivate today m).status = Status.inactive := rfl
      rw [hst]
      simp only [true_iff]
      refine Or.inr ⟨h1.1, h1.2, ?_, ?_⟩
      · exact of_decide_eq_true h2
      · revert h3; cases has_payment_after payments m <;> simp
    · -- selected ∧ active but not expired beyond 90 days: unchanged
      constructor
      · intro h; exact Or.inl h
      · rintro (h | ⟨_, _, he, _⟩)
        · exact h
        · exact absurd (decide_eq_true he) h2
    · -- not selected or not active: unchanged
      constructor
      · intro h; exact Or.inl h
      · rintro (h | ⟨hc, hs, _, _⟩)
        · exact h
        · exact absurd ⟨hc, hs⟩ h1
  · unfold command_step
    split_ifs with h1
    · simp only [true_iff]
      exact Or.inr h1
    · constructor
      · intro h; exact Or.inl h
      · rintro (h | ⟨hs, he⟩)
        · exact h
        · exact absurd ⟨hs, he⟩ h1

/-- C1 fixtures: an active member expired 100 days with a payment 90 days
AFTER its expiration. -/
def late_payer : Member :=
  { member_uuid := 1, member_id := some 7, preferred_member_id := some 7,
    status := Status.active, expiration_date := -100, date_inactivated := none,
    first_name := "Jane", last_name := "Doe", email := "", home_phone := "" }

def late_payment : Payment :=
  { member_uuid := 1, payment_method := 1, amount := 3000, date := -10,
    receipt_number := "r1" }

/-- C1 counterexample: with today = 0 and the default 90-day grace period,
the scheduled command deactivates `late_payer` even though a payment of that
member is dated strictly after its expiration, so the claimed
execution-time eligibility predicate does NOT hold for every member the
command transitions to inactive. -/
theorem command_ignores_late_payment :
    process_expired_members 0 90 [late_payer] =
      [{ late_payer with status := Status.inactive, member_id := none,
                         date_inactivated := some 0 }] ∧
    late_payer.status = Status.active ∧
    late_payment.member_uuid = late_payer.member_uuid ∧
    late_payment.date > late_payer.expiration_date := by
  refine ⟨?_, rfl, rfl, by decide⟩
  show [command_step 0 90 late_payer] = _
  rw [show command_step 0 90 late_payer =
    { late_payer with status := Status.inactive, member_id := none,
                      date_inactivated := some 0 } from by
      unfold command_step
      rw [if_pos ⟨rfl, by decide⟩]]

/-! ## Claim C6 -/

theorem suggest_loop_cons (avail : Nat → Bool) (count i : Nat)
    (rest acc : List Nat) :
    suggest_loop avail count (i :: rest) acc =
      if avail i then
        (if count ≤ (acc ++ [i]).length then acc ++ [i]
         else suggest_loop avail count rest (acc ++ [i]))
      else suggest_loop avail count rest acc := rfl

/-- Closed form of the suggestion loop while the accumulator is still short
of `count`: it appends the next `count - acc.length` available candidates. -/
theorem suggest_loop_eq_take (avail : Nat → Bool) (count : Nat) :
    ∀ (l acc : List Nat), acc.length < count →
      suggest_loop avail count l acc =
        acc ++ (l.filter avail).take (count - acc.length) := by
  intro l
  induction l with
  | nil => intro acc h; simp [suggest_loop]
  | cons i rest ih =>
    intro acc h
    by_cases hi : avail i = true
    · rw [List.filter_cons_of_pos hi]
      have hlen' : (acc ++ [i]).length = acc.length + 1 := by simp
      by_cases hlen : count ≤ (acc ++ [i]).length
      · have hc : count - acc.length = 1 := by omega
        rw [suggest_loop_cons, if_pos hi, if_pos hlen, hc]
        simp
      · have hlt : (acc ++ [i]).length < count := by omega
        obtain ⟨k, hk⟩ : ∃ k, count - acc.length = k + 1 :=
          ⟨count - acc.length - 1, by omega⟩
        have hc : count - (acc ++ [i]).length = k := by omega
        rw [suggest_loop_cons, if_pos hi, if_neg hlen, ih _ hlt, hc, hk,
          List.take_succ_cons, List.append_assoc, List.singleton_append]
    · rw [List.filter_cons_of_neg hi, suggest_loop_cons, if_neg hi]
      exact ih acc h

/-- At `count = 0` the break still fires only after the first append, so the
loop returns the single lowest available candidate (or `[]` if none). -/
theorem suggest_loop_count_zero (avail : Nat → Bool) :
    ∀ l : List Nat, suggest_loop avail 0 l [] = (l.filter avail).take 1 := by
  intro l
  induction l with
  | nil => rfl
  | cons i rest ih =>
    by_cases hi : avail i = true
    · rw [List.filter_cons_of_pos hi, suggest_loop_cons, if_pos hi,
        if_pos (Nat.zero_le _)]
      simp
    · rw [List.filter_cons_of_neg hi, suggest_loop_cons, if_neg hi]
      exact ih

/-- The whole loop equals take `max count 1` of the available candidates in
order (`max count 1`, not `count`: the break test runs only after an
append). -/
theorem get_suggested_ids_eq (members : List Member) (count : Nat) :
    (get_suggested_ids members count).2 =
      ((List.range' 1 1000).filter (fun i => ! id_taken members i)).take
        (max count 1) := by
  show suggest_loop (fun i => ! id_taken members i) count (List.range' 1 1000) [] = _
  by_cases hc : count = 0
  · subst hc
    rw [suggest_loop_count_zero]
    norm_num
  · have h0 : 0 < count := Nat.pos_of_ne_zero hc
    rw [suggest_loop_eq_take _ _ _ [] (by simpa using h0)]
    simp [Nat.max_eq_left h0]

/-- C6 (amended): `get_next_available_id` returns the lowest ID in
[1, 1000] (the range the code actually scans, not the spec's [1, 999]) not
held by any active member, `none` when all of 1..1000 are held, and never an
ID held by an active member; `get_suggested_ids` returns the lowest
available IDs of [1, 1000] in ascending order — at most `max count 1` of
them, since the loop's break test runs only after an append (so `count = 0`
still yields the single lowest available ID), and with every available ID
included whenever fewer than `count` were collected. -/
theorem id_allocation_correct (members : List Member) (count x : Nat) :
    (get_next_available_id members = some x →
      1 ≤ x ∧ x ≤ 1000 ∧ id_taken members x = false ∧
        ∀ j, 1 ≤ j → j < x → id_taken members j = true) ∧
    ((∀ i, 1 ≤ i → i ≤ 1000 → id_taken members i = true) →
      get_next_available_id members = none) ∧
    List.Pairwise (· < ·) (get_suggested_ids members count).2 ∧
    (∀ y ∈ (get_suggested_ids members count).2,
      1 ≤ y ∧ y ≤ 1000 ∧ id_taken members y = false) ∧
    (get_suggested_ids members count).2.length ≤ max count 1 ∧
    (∀ y, 1 ≤ y → y ≤ 1000 → id_taken members y = false →
      y ∉ (get_suggested_ids members count).2 →
      ∀ z ∈ (get_suggested_ids members count).2, z < y) ∧
    ((get_suggested_ids members count).2.length < count →
      ∀ y, 1 ≤ y → y ≤ 1000 → id_taken members y = false →
        y ∈ (get_suggested_ids members count).2) := by
  have hpair : List.Pairwise (· < ·)
      ((List.range' 1 1000).filter (fun i => ! id_taken members i)) :=
    List.Pairwise.sublist (List.filter_sublist _) (List.pairwise_lt_range' 1 1000)
  have hsug := get_suggested_ids_eq members count
  refine ⟨?_, ?_, ?_, ?_, ?_, ?_, ?_⟩
  · intro h
    obtain ⟨h1, h2, h3, h4⟩ := find?_range'_spec _ 1000 1 x h
    refine ⟨h2, by omega, by simpa using h1, fun j hj1 hj2 => ?_⟩
    have := h4 j hj1 hj2
    simpa using this
  · intro h
    apply List.find?_eq_none.mpr
    intro i hi
    obtain ⟨hi1, hi2⟩ := List.mem_range'_1.mp hi
    rw [h i hi1 (by omega)]
    simp
  · rw [hsug]
    exact List.Pairwise.sublist (List.take_sublist _ _) hpair
  · intro y hy
    rw [hsug] at hy
    have hy' := List.take_subset _ _ hy
    obtain ⟨hyr, hyp⟩ := List.mem_filter.mp hy'
    obtain ⟨h1, h2⟩ := List.mem_range'_1.mp hyr
    exact ⟨h1, by omega, by simpa using hyp⟩
  · rw [hsug]
    exact List.length_take_le _ _
  · intro y hy1 hy2 hy3 hy4 z hz
    rw [hsug] at hy4 hz
    have hyf : y ∈ (List.range' 1 1000).filter (fun i => ! id_taken members i) :=
      List.mem_filter.mpr ⟨List.mem_range'_1.mpr ⟨hy1, by omega⟩, by simp [hy3]⟩
    rw [← List.take_append_drop (max count 1)
      ((List.range' 1 1000).filter (fun i => ! id_taken members i))] at hyf
    rcases List.mem_append.mp hyf with hyt | hyd
    · exact absurd hyt hy4
    · have hp := hpair
      rw [← List.take_append_drop (max count 1)
        ((List.range' 1 1000).filter (fun i => ! id_taken members i))] at hp
      exact (List.pairwise_append.mp hp).2.2 z hz y hyd
  · intro hlen y hy1 hy2 hy3
    rw [hsug] at hlen ⊢
    have hcz : 0 < count := by
      by_contra hc
      omega
    rw [Nat.max_eq_left hcz] at hlen ⊢
    have hflen : ((List.range' 1 1000).filter
        (fun i => ! id_taken members i)).length ≤ count := by
      have h' : (((List.range' 1 1000).filter
          (fun i => ! id_taken members i)).take count).length =
          min count ((List.range' 1 1000).filter
            (fun i => ! id_taken members i)).length := by
        simp
      omega
    rw [List.take_of_length_le hflen]
    exact List.mem_filter.mpr ⟨List.mem_range'_1.mpr ⟨hy1, by omega⟩, by simp [hy3]⟩

theorem id_allocation_correct_witness :
    1 ≤ 1 ∧ 1 ≤ 1000 ∧ id_taken ([] : List Member) 1 = false := by
  have h := (id_allocation_correct [] 0 1).1 rfl
  exact ⟨h.1, h.2.1, h.2.2.1⟩

/-- An active member row holding recyclable ID `i`. -/
def mkActive (i : Nat) : Member :=
  { member_uuid := 100000 + i, member_id := some i, preferred_member_id := some i,
    status := Status.active, expiration_date := 0, date_inactivated := none,
    first_name := "Act", last_name := "Ive", email := "", home_phone := "" }

/-- A table in which active members hold exactly the IDs 1..999. -/
def allHeld999 : List Member := (List.range' 1 999).map mkActive

/-- A table in which active members hold exactly the IDs 1..1000. -/
def allHeld1000 : List Member := (List.range' 1 1000).map mkActive

theorem id_taken_mkActive_map (r n i : Nat) (h1 : r ≤ i) (h2 : i < r + n) :
    id_taken ((List.range' r n).map mkActive) i = true := by
  apply List.any_eq_true.mpr
  exact ⟨mkActive i, List.mem_map_of_mem _ (List.mem_range'_1.mpr ⟨h1, h2⟩),
    by simp [mkActive]⟩

theorem id_not_taken_mkActive_map (r n i : Nat) (h : ∀ j, r ≤ j → j < r + n → j ≠ i) :
    id_taken ((List.range' r n).map mkActive) i = false := by
  apply List.any_eq_false.mpr
  intro x hx
  obtain ⟨j, hj, rfl⟩ := List.mem_map.mp hx
  obtain ⟨hj1, hj2⟩ := List.mem_range'_1.mp hj
  simp [mkActive]
  exact h j hj1 hj2

/-- C6 counterexample: when active members hold exactly the IDs 1..999 (the
spec's sanctioned range fully exhausted), the code returns ID 1000 instead
of the `none` the claim requires for an exhausted [1, 999] range. -/
theorem next_id_beyond_999 :
    get_next_available_id allHeld999 = some 1000 ∧
    id_taken allHeld999 999 = true ∧ id_taken allHeld999 1 = true := by
  refine ⟨?_, id_taken_mkActive_map 1 999 999 (by omega) (by omega),
    id_taken_mkActive_map 1 999 1 (by omega) (by omega)⟩
  · unfold get_next_available_id
    have hsplit : List.range' 1 1000 = List.range' 1 999 ++ List.range' 1000 1 := by
      rw [List.range'_append_1]
    rw [hsplit, List.find?_append]
    have hnone : (List.range' 1 999).find? (fun i => ! id_taken allHeld999 i) = none := by
      apply List.find?_eq_none.mpr
      intro i hi
      obtain ⟨hi1, hi2⟩ := List.mem_range'_1.mp hi
      rw [show id_taken allHeld999 i = true from
        id_taken_mkActive_map 1 999 i hi1 hi2]
      simp
    rw [hnone]
    have h1000 : id_taken allHeld999 1000 = false := by
      apply id_not_taken_mkActive_map
      intro j hj1 hj2
      omega
    simp [List.range', List.find?, h1000]

/-! ## Claims C7 and C8 -/

/-- C7 (amended): `Member.reactivate` always produces an active member with
`date_inactivated` cleared; the assigned ID is the preferred one when it is
truthy and available, and the pool's next available ID otherwise; but
`preferred_member_id` itself is left UNCHANGED (it equals the assigned ID
only when the preferred ID was restored).  `Command.reinstate_member`
likewise restores `preferred_member_id` into `member_id` without rewriting
`preferred_member_id`. -/
theorem reactivation_behavior (members : List Member) (m m' : Member) (p : Nat) :
    (reactivate members m).status = Status.active ∧
    (reactivate members m).date_inactivated = none ∧
    (reactivate members m).preferred_member_id = m.preferred_member_id ∧
    (m.preferred_member_id = some p → p ≠ 0 →
      is_member_id_available members p = true →
      (reactivate members m).member_id = some p) ∧
    (m.preferred_member_id = some p → is_member_id_available members p = false →
      (reactivate members m).member_id = get_next_available_id members) ∧
    (m.preferred_member_id = none →
      (reactivate members m).member_id = get_next_available_id members) ∧
    (reinstate_member members m = some m' →
      m'.preferred_member_id = m.preferred_member_id ∧
      m'.member_id = m.preferred_member_id ∧
      m'.status = Status.active ∧ m'.date_inactivated = none) := by
  refine ⟨rfl, rfl, rfl, ?_, ?_, ?_, ?_⟩
  · intro h hp hav
    simp [reactivate, h, hp, hav]
  · intro h hav
    simp [reactivate, h, hav]
  · intro h
    simp [reactivate, h]
  · intro h
    unfold reinstate_member at h
    split_ifs at h with h1 h2
    injection h with h
    subst h
    exact ⟨rfl, rfl, rfl, rfl⟩

/-- C7 fixtures: one active member holds ID 42; the member to reactivate
prefers 42. -/
def holder_of_42 : Member :=
  { member_uuid := 11, member_id := some 42, preferred_member_id := some 42,
    status := Status.active, expiration_date := 0, date_inactivated := none,
    first_name := "Holder", last_name := "Forty", email := "", home_phone := "" }

def returning_member : Member :=
  { member_uuid := 12, member_id := none, preferred_member_id := some 42,
    status := Status.inactive, expiration_date := -200,
    date_inactivated := some (-10), first_name := "Ret", last_name := "Urn",
    email := "", home_phone := "" }

/-- C7 counterexample: reactivating `returning_member` while ID 42 is taken
assigns the next available ID 1, but `preferred_member_id` stays 42 — it is
NOT set equal to the ID that was assigned, contrary to the claim. -/
theorem reactivation_keeps_stale_preferred :
    (reactivate [holder_of_42] returning_member).member_id = some 1 ∧
    (reactivate [holder_of_42] returning_member).preferred_member_id = some 42 ∧
    (reactivate [holder_of_42] returning_member).status = Status.active := by
  refine ⟨?_, rfl, rfl⟩
  decide

theorem reactivation_behavior_witness :
    (reactivate [holder_of_42] returning_member).member_id =
      get_next_available_id [holder_of_42] :=
  (reactivation_behavior [holder_of_42] returning_member returning_member 42).2.2.2.2.1
    rfl (by decide)

/-- C8: with the pool exhausted (active members hold all of 1..1000) and the
preferred ID taken, `Member.reactivate` does NOT fail cleanly leaving the
member inactive: it saves the member as ACTIVE with `member_id = None`.
`Command.reinstate_member` on the same state aborts abnormally (it calls
`Member.get_next_available_member_id`, which does not exist), modelled as
`none`, so its "no IDs available" report is unreachable. -/
theorem reactivation_on_exhausted_pool :
    (reactivate allHeld1000 returning_member).status = Status.active ∧
    (reactivate allHeld1000 returning_member).member_id = none ∧
    reinstate_member allHeld1000 returning_member = none := by
  have htaken : ∀ i, 1 ≤ i → i ≤ 1000 → id_taken allHeld1000 i = true :=
    fun i h1 h2 => id_taken_mkActive_map 1 1000 i h1 (by omega)
  have hnone : get_next_available_id allHeld1000 = none := by
    apply List.find?_eq_none.mpr
    intro i hi
    obtain ⟨hi1, hi2⟩ := List.mem_range'_1.mp hi
    rw [htaken i hi1 (by omega)]
    simp
  have h42 : is_member_id_available allHeld1000 42 = false := by
    unfold is_member_id_available
    rw [htaken 42 (by omega) (by omega)]
    rfl
  have hany : allHeld1000.any (fun x => decide (x.status = Status.active ∧
      x.member_id = returning_member.preferred_member_id)) = true := by
    have h := htaken 42 (by omega) (by omega)
    unfold id_taken at h
    exact h
  refine ⟨rfl, ?_, ?_⟩
  · show (reactivate allHeld1000 returning_member).member_id = none
    rw [show returning_member.preferred_member_id = some 42 from rfl] at *
    simp [reactivate, h42, hnone, show returning_member.preferred_member_id =
      some 42 from rfl]
  · unfold reinstate_member
    rw [hany]
    simp [returning_member]

/-! ## Claim C10 -/

/-- C10: `process_payment` creates the payment row keyed by the member's
permanent UUID and touches only `expiration_date`, `status` and
`date_inactivated` — `member_id`, `preferred_member_id` and every identity
or contact column are unchanged, and the ID pool is never consulted (the
function takes no member table at all).  In particular an inactive member
with `member_id = None` comes out active with `member_id` still `None`,
unlike explicit reactivation. -/
theorem process_payment_frame (m : Member) (pd : PaymentData) :
    (process_payment m pd).1 =
      { member_uuid := m.member_uuid, payment_method := pd.payment_method_id,
        amount := pd.amount, date := pd.payment_date,
        receipt_number := pd.receipt_number } ∧
    (process_payment m pd).2.1.member_id = m.member_id ∧
    (process_payment m pd).2.1.preferred_member_id = m.preferred_member_id ∧
    (process_payment m pd).2.1.member_uuid = m.member_uuid ∧
    (process_payment m pd).2.1.first_name = m.first_name ∧
    (process_payment m pd).2.1.last_name = m.last_name ∧
    (process_payment m pd).2.1.email = m.email ∧
    (process_payment m pd).2.1.home_phone = m.home_phone ∧
    (process_payment m pd).2.1.expiration_date = pd.new_expiration ∧
    (m.status = Status.inactive →
      (process_payment m pd).2.1.status = Status.active ∧
      (process_payment m pd).2.1.date_inactivated = none ∧
      (process_payment m pd).2.2 = true) ∧
    (m.status ≠ Status.inactive →
      (process_payment m pd).2.1.status = m.status ∧
      (process_payment m pd).2.1.date_inactivated = m.date_inactivated ∧
      (process_payment m pd).2.2 = false) ∧
    (m.status = Status.inactive → m.member_id = none →
      (process_payment m pd).2.1.status = Status.active ∧
      (process_payment m pd).2.1.member_id = none) := by
  by_cases h : m.status = Status.inactive <;>
    simp [process_payment, h]

theorem process_payment_frame_witness :
    (process_payment returning_member
      ⟨1, 3000, 5, "w1", 40⟩).2.1.status = Status.active ∧
    (process_payment returning_member ⟨1, 3000, 5, "w1", 40⟩).2.1.member_id = none :=
  (process_payment_frame returning_member ⟨1, 3000, 5, "w1", 40⟩).2.2.2.2.2.2.2.2.2.2.2
    rfl rfl

/-! ## Duplicate detection (`MemberService.check_duplicate_members`) -/

inductive MatchReason where
  | name
  | phone
  | email
deriving DecidableEq, Repr

/-- One entry of the returned match list
(`{"member": ..., "match_reason": ..., "match_text": ...}`). -/
structure DupMatch where
  member : Member
  match_reason : MatchReason
  match_text : String
deriving DecidableEq, Repr

/-- Django `__iexact`: case-insensitive exact string match. -/
def iexact (a b : String) : Bool :=
  decide (a.toLower = b.toLower)

/-- The name criterion: `first_name__iexact` AND `last_name__iexact`. -/
def name_matches (first_name last_name : String) (m : Member) : Bool :=
  iexact m.first_name first_name && iexact m.last_name last_name

/-- `any(m["member"].pk == member.pk for m in matches)`. -/
def pk_in (acc : List DupMatch) (k : Nat) : Bool :=
  acc.any (fun e => decide (e.member.member_uuid = k))

/-- Append the match unless a match for the same pk is already present
(the phone/email loops' dedup check). -/
def add_if_new (r : MatchReason) (t : String) (acc : List DupMatch)
    (m : Member) : List DupMatch :=
  if pk_in acc m.member_uuid then acc else acc ++ [⟨m, r, t⟩]

/-- `MemberService.check_duplicate_members`: all name matches are appended
first (no dedup check), then phone matches (exact, only if `phone` truthy),
then email matches (iexact, only if `email` truthy), the latter two each
skipping members whose pk is already matched. -/
def check_duplicate_members (members : List Member)
    (first_name last_name email phone : String) : List DupMatch :=
  let matches1 := (members.filter (name_matches first_name last_name)).map
    (fun m => { member := m, match_reason := MatchReason.name,
                match_text := first_name ++ " " ++ last_name })
  let matches2 := if phone = "" then matches1 else
    (members.filter (fun m => decide (m.home_phone = phone))).foldl
      (add_if_new MatchReason.phone phone) matches1
  let matches3 := if email = "" then matches2 else
    (members.filter (fun m => iexact m.email email)).foldl
      (add_if_new MatchReason.email email) matches2
  matches3

/-- The first matching criterion in the source's priority order
name → phone → email (`None` when the candidate matches no criterion). -/
def firstReason (first_name last_name email phone : String) (m : Member) :
    Option MatchReason :=
  if name_matches first_name last_name m = true then some MatchReason.name
  else if phone ≠ "" ∧ m.home_phone = phone then some MatchReason.phone
  else if email ≠ "" ∧ iexact m.email email = true then some MatchReason.email
  else none

/-! ## Lemmas about the dedup accumulation -/

theorem pk_in_iff (acc : List DupMatch) (k : Nat) :
    pk_in acc k = true ↔ k ∈ acc.map (fun e => e.member.member_uuid) := by
  simp only [pk_in, List.any_eq_true, decide_eq_true_eq, List.mem_map]

theorem pk_in_add_if_new (r : MatchReason) (t : String) (acc : List DupMatch)
    (m : Member) (k : Nat) (h : pk_in acc k = true) :
    pk_in (add_if_new r t acc m) k = true := by
  unfold add_if_new
  split_ifs with h1
  · exact h
  · rw [pk_in_iff] at h ⊢
    simp only [List.map_append, List.mem_append]
    exact Or.inl h

theorem pk_in_foldl (r : MatchReason) (t : String) :
    ∀ (L : List Member) (acc : List DupMatch) (k : Nat),
      pk_in acc k = true → pk_in (L.foldl (add_if_new r t) acc) k = true := by
  intro L
  induction L with
  | nil => exact fun acc k h => h
  | cons x L ih => exact fun acc k h => ih _ k (pk_in_add_if_new r t acc x k h)

theorem pk_in_foldl_self (r : MatchReason) (t : String) :
    ∀ (L : List Member) (acc : List DupMatch) (m : Member), m ∈ L →
      pk_in (L.foldl (add_if_new r t) acc) m.member_uuid = true := by
  intro L
  induction L with
  | nil => intro acc m h; cases h
  | cons x L ih =>
    intro acc m h
    rcases List.mem_cons.mp h with h | h
    · subst h
      rw [List.foldl_cons]
      apply pk_in_foldl
      unfold add_if_new
      split_ifs with h1
      · exact h1
      · rw [pk_in_iff]
        simp
    · exact ih _ m h

theorem mem_acc_foldl_add_if_new (r : MatchReason) (t : String) :
    ∀ (L : List Member) (acc : List DupMatch) (e : DupMatch), e ∈ acc →
      e ∈ L.foldl (add_if_new r t) acc := by
  intro L
  induction L with
  | nil => exact fun acc e h => h
  | cons x L ih =>
    intro acc e h
    apply ih
    unfold add_if_new
    split_ifs with h1
    · exact h
    · exact List.mem_append_left _ h

theorem mem_foldl_add_if_new (r : MatchReason) (t : String) :
    ∀ (L : List Member) (acc : List DupMatch) (e : DupMatch),
      e ∈ L.foldl (add_if_new r t) acc →
      e ∈ acc ∨ (e.member ∈ L ∧ e.match_reason = r ∧ e.match_text = t ∧
        pk_in acc e.member.member_uuid = false) := by
  intro L
  induction L with
  | nil => exact fun acc e h => Or.inl h
  | cons x L ih =>
    intro acc e h
    rcases ih (add_if_new r t acc x) e h with h1 | ⟨h1, h2, h3, h4⟩
    · unfold add_if_new at h1
      split_ifs at h1 with hx
      · exact Or.inl h1
      · rcases List.mem_append.mp h1 with h2 | h2
        · exact Or.inl h2
        · have he : e = ⟨x, r, t⟩ := by simpa using h2
          subst he
          refine Or.inr ⟨List.mem_cons_self _ _, rfl, rfl, ?_⟩
          revert hx
          cases pk_in acc x.member_uuid <;> simp
    · refine Or.inr ⟨List.mem_cons_of_mem _ h1, h2, h3, ?_⟩
      by_contra hc
      have hacc : pk_in acc e.member.member_uuid = true := by
        revert hc
        cases pk_in acc e.member.member_uuid <;> simp
      have h5 := pk_in_add_if_new r t acc x _ hacc
      rw [h5] at h4
      exact Bool.noConfusion h4

theorem nodup_foldl_add_if_new (r : MatchReason) (t : String) :
    ∀ (L : List Member) (acc : List DupMatch),
      (acc.map (fun e => e.member.member_uuid)).Nodup →
      ((L.foldl (add_if_new r t) acc).map (fun e => e.member.member_uuid)).Nodup := by
  intro L
  induction L with
  | nil => exact fun acc h => h
  | cons x L ih =>
    intro acc h
    apply ih
    unfold add_if_new
    split_ifs with hx
    · exact h
    · rw [List.map_append]
      refine List.nodup_append.mpr ⟨h, List.nodup_singleton _, ?_⟩
      intro a ha hb
      have hax : a = x.member_uuid := by simpa using hb
      subst hax
      exact hx ((pk_in_iff acc _).mpr ha)

/-! ## Claim C9 -/

/-- C9: duplicate detection lists each matching existing member exactly once
(given distinct pks), with `match_reason` equal to the first matching
criterion in priority order name → phone → email (phone/email checked only
when provided), and with members of every status eligible (no status filter
appears in any criterion). -/
theorem duplicate_detection_correct (members : List Member)
    (fn ln em ph : String)
    (hnodup : (members.map (fun m => m.member_uuid)).Nodup) :
    ((check_duplicate_members members fn ln em ph).map
        (fun e => e.member.member_uuid)).Nodup ∧
    (∀ e ∈ check_duplicate_members members fn ln em ph,
      e.member ∈ members ∧
      firstReason fn ln em ph e.member = some e.match_reason) ∧
    (∀ m ∈ members, firstReason fn ln em ph m ≠ none →
      ∃ e ∈ check_duplicate_members members fn ln em ph, e.member = m) := by
  set matches1 := (members.filter (name_matches fn ln)).map
      (fun m => ({ member := m, match_reason := MatchReason.name,
                   match_text := fn ++ " " ++ ln } : DupMatch)) with hm1
  set phoneL := members.filter (fun m => decide (m.home_phone = ph)) with hpl
  set emailL := members.filter (fun m => iexact m.email em) with hel
  set m2 := if ph = "" then matches1 else
    phoneL.foldl (add_if_new MatchReason.phone ph) matches1 with hm2
  set m3 := if em = "" then m2 else
    emailL.foldl (add_if_new MatchReason.email em) m2 with hm3
  have hres : check_duplicate_members members fn ln em ph = m3 := rfl
  have hmemm1 : ∀ e : DupMatch, e ∈ matches1 →
      e.member ∈ members ∧ name_matches fn ln e.member = true ∧
      e.match_reason = MatchReason.name := by
    intro e he
    rw [hm1] at he
    obtain ⟨m, hm, rfl⟩ := List.mem_map.mp he
    obtain ⟨hmm, hmp⟩ := List.mem_filter.mp hm
    exact ⟨hmm, hmp, rfl⟩
  have hpkm1 : ∀ k, pk_in matches1 k = true ↔
      ∃ m ∈ members, name_matches fn ln m = true ∧ m.member_uuid = k := by
    intro k
    rw [pk_in_iff]
    constructor
    · intro hk
      obtain ⟨e, he, hek⟩ := List.mem_map.mp hk
      obtain ⟨h1, h2, _⟩ := hmemm1 e he
      exact ⟨e.member, h1, h2, hek⟩
    · rintro ⟨m, hm, hnm, rfl⟩
      apply List.mem_map.mpr
      refine ⟨⟨m, MatchReason.name, fn ++ " " ++ ln⟩, ?_, rfl⟩
      rw [hm1]
      exact List.mem_map.mpr ⟨m, List.mem_filter.mpr ⟨hm, hnm⟩, rfl⟩
  have hnodupm1 : (matches1.map (fun e => e.member.member_uuid)).Nodup := by
    rw [hm1, List.map_map]
    have hsub : List.Sublist
        ((members.filter (name_matches fn ln)).map (fun m => m.member_uuid))
        (members.map (fun m => m.member_uuid)) :=
      (List.filter_sublist _).map _
    exact hnodup.sublist hsub
  have hm1subm2 : ∀ e : DupMatch, e ∈ matches1 → e ∈ m2 := by
    intro e he
    rw [hm2]
    split_ifs
    · exact he
    · exact mem_acc_foldl_add_if_new _ _ _ _ _ he
  have hm2subm3 : ∀ e : DupMatch, e ∈ m2 → e ∈ m3 := by
    intro e he
    rw [hm3]
    split_ifs
    · exact he
    · exact mem_acc_foldl_add_if_new _ _ _ _ _ he
  have hpkm2_of_m1 : ∀ k, pk_in matches1 k = true → pk_in m2 k = true := by
    intro k hk
    rw [hm2]
    split_ifs
    · exact hk
    · exact pk_in_foldl _ _ _ _ _ hk
  have hpkm3_of_m2 : ∀ k, pk_in m2 k = true → pk_in m3 k = true := by
    intro k hk
    rw [hm3]
    split_ifs
    · exact hk
    · exact pk_in_foldl _ _ _ _ _ hk
  have hmemm2 : ∀ e : DupMatch, e ∈ m2 →
      e ∈ matches1 ∨ (ph ≠ "" ∧ e.member ∈ phoneL ∧
        e.match_reason = MatchReason.phone ∧
        pk_in matches1 e.member.member_uuid = false) := by
    intro e he
    rw [hm2] at he
    by_cases hph : ph = ""
    · rw [if_pos hph] at he
      exact Or.inl he
    · rw [if_neg hph] at he
      rcases mem_foldl_add_if_new _ _ _ _ _ he with h | ⟨ha, hb, _, hd⟩
      · exact Or.inl h
      · exact Or.inr ⟨hph, ha, hb, hd⟩
  have hmemm3 : ∀ e : DupMatch, e ∈ m3 →
      e ∈ m2 ∨ (em ≠ "" ∧ e.member ∈ emailL ∧
        e.match_reason = MatchReason.email ∧
        pk_in m2 e.member.member_uuid = false) := by
    intro e he
    rw [hm3] at he
    by_cases hem : em = ""
    · rw [if_pos hem] at he
      exact Or.inl he
    · rw [if_neg hem] at he
      rcases mem_foldl_add_if_new _ _ _ _ _ he with h | ⟨ha, hb, _, hd⟩
      · exact Or.inl h
      · exact Or.inr ⟨hem, ha, hb, hd⟩
  have hprov : ∀ e : DupMatch, e ∈ m3 → e.member ∈ members := by
    intro e he
    rcases hmemm3 e he with h | ⟨_, h, _, _⟩
    · rcases hmemm2 e h with h' | ⟨_, h', _, _⟩
      · exact (hmemm1 e h').1
      · exact (List.mem_filter.mp h').1
    · exact (List.mem_filter.mp h).1
  have hreason : ∀ e ∈ m3, firstReason fn ln em ph e.member = some e.match_reason := by
    intro e he
    rcases hmemm3 e he with h2 | ⟨hem, heL, her, hpk2⟩
    · rcases hmemm2 e h2 with h1 | ⟨hph, hpL, hpr, hpk1⟩
      · obtain ⟨_, hn, hr⟩ := hmemm1 e h1
        rw [hr]
        unfold firstReason
        rw [if_pos hn]
      · have hphone : e.member.home_phone = ph := by
          have := (List.mem_filter.mp hpL).2
          simpa using this
        have hnm : ¬ name_matches fn ln e.member = true := by
          intro hc
          have hk : pk_in matches1 e.member.member_uuid = true :=
            (hpkm1 _).mpr ⟨e.member, hprov e he, hc, rfl⟩
          rw [hk] at hpk1
          exact Bool.noConfusion hpk1
        rw [hpr]
        unfold firstReason
        rw [if_neg hnm, if_pos ⟨hph, hphone⟩]
    · have hemail : iexact e.member.email em = true := (List.mem_filter.mp heL).2
      have hnm : ¬ name_matches fn ln e.member = true := by
        intro hc
        have hk : pk_in matches1 e.member.member_uuid = true :=
          (hpkm1 _).mpr ⟨e.member, hprov e he, hc, rfl⟩
        have hk2 := hpkm2_of_m1 _ hk
        rw [hk2] at hpk2
        exact Bool.noConfusion hpk2
      have hnp : ¬ (ph ≠ "" ∧ e.member.home_phone = ph) := by
        rintro ⟨hph, hphone⟩
        have hin : e.member ∈ phoneL :=
          List.mem_filter.mpr ⟨hprov e he, by simp [hphone]⟩
        have hk2 : pk_in m2 e.member.member_uuid = true := by
          rw [hm2, if_neg hph]
          exact pk_in_foldl_self _ _ _ _ _ hin
        rw [hk2] at hpk2
        exact Bool.noConfusion hpk2
      rw [her]
      unfold firstReason
      rw [if_neg hnm, if_neg hnp, if_pos ⟨hem, hemail⟩]
  have hcomplete : ∀ m ∈ members, firstReason fn ln em ph m ≠ none →
      ∃ e ∈ m3, e.member = m := by
    intro m hm hfr
    unfold firstReason at hfr
    split_ifs at hfr with h1 h2 h3
    · refine ⟨⟨m, MatchReason.name, fn ++ " " ++ ln⟩, ?_, rfl⟩
      apply hm2subm3
      apply hm1subm2
      rw [hm1]
      exact List.mem_map.mpr ⟨m, List.mem_filter.mpr ⟨hm, h1⟩, rfl⟩
    · obtain ⟨hp, hphone⟩ := h2
      have hin : m ∈ phoneL := List.mem_filter.mpr ⟨hm, by simp [hphone]⟩
      have hpk : pk_in m3 m.member_uuid = true := by
        apply hpkm3_of_m2
        rw [hm2, if_neg hp]
        exact pk_in_foldl_self _ _ _ _ _ hin
      rw [pk_in_iff] at hpk
      obtain ⟨e, he, hek⟩ := List.mem_map.mp hpk
      exact ⟨e, he, List.inj_on_of_nodup_map hnodup (hprov e he) hm hek⟩
    · obtain ⟨hemne, hemail⟩ := h3
      have hin : m ∈ emailL := List.mem_filter.mpr ⟨hm, hemail⟩
      have hpk : pk_in m3 m.member_uuid = true := by
        rw [hm3, if_neg hemne]
        exact pk_in_foldl_self _ _ _ _ _ hin
      rw [pk_in_iff] at hpk
      obtain ⟨e, he, hek⟩ := List.mem_map.mp hpk
      exact ⟨e, he, List.inj_on_of_nodup_map hnodup (hprov e he) hm hek⟩
    · exact absurd rfl hfr
  have hnodup3 : (m3.map (fun e => e.member.member_uuid)).Nodup := by
    have hn2 : (m2.map (fun e => e.member.member_uuid)).Nodup := by
      rw [hm2]
      split_ifs
      · exact hnodupm1
      · exact nodup_foldl_add_if_new _ _ _ _ hnodupm1
    rw [hm3]
    split_ifs
    · exact hn2
    · exact nodup_foldl_add_if_new _ _ _ _ hn2
  rw [hres]
  exact ⟨hnodup3, fun e he => ⟨hprov e he, hreason e he⟩, hcomplete⟩

/-- C9 fixture: an existing member matching a candidate by name and email. -/
def ann : Member :=
  { member_uuid := 21, member_id := some 3, preferred_member_id := some 3,
    status := Status.deceased, expiration_date := 0, date_inactivated := none,
    first_name := "Ann", last_name := "Lee", email := "ann@example.com",
    home_phone := "555" }

theorem duplicate_detection_correct_witness :
    ((check_duplicate_members [ann] "ANN" "lee" "ann@EXAMPLE.com" "").map
      (fun e => e.member.member_uuid)).Nodup :=
  (duplicate_detection_correct [ann] "ANN" "lee" "ann@EXAMPLE.com" ""
    (by decide)).1
